import Mathlib

/-!
Shallow embedding of the `tailr` crate (`src/tailr/src/lib.rs`) and proofs of
the specification claims about it.

Machine integers are modelled as `Int` with explicit range guards:
`i64::abs` is modelled with its debug-profile overflow behaviour (a panic,
rendered as `none`), and `as u64` casts are modelled as reduction modulo
`2 ^ 64`.  A panic anywhere is propagated as an outer `none`.
-/

/-- Smallest `i64` value, `-2^63`. -/
def i64min : Int := -(2 ^ 63)

/-- Largest `i64` value, `2^63 - 1`. -/
def i64max : Int := 2 ^ 63 - 1

/-- The `TakeValue` enum of `tailr`: `PlusZero` for the textual form `+0`,
`TakeNum n` for every other parsed count. -/
inductive TakeValue where
  | PlusZero : TakeValue
  | TakeNum : Int → TakeValue
deriving DecidableEq, Repr

/-- Rust `i64::abs`.  For `i64::MIN` the absolute value is not representable;
in a debug build the call panics, modelled here as `none`. -/
def absI64 (n : Int) : Option Int :=
  if n = i64min then none else some (n.natAbs : Int)

/-- Rust `i64` addition with its debug-profile overflow panic modelled as
`none`. -/
def checkedAddI64 (a b : Int) : Option Int :=
  if i64min ≤ a + b ∧ a + b ≤ i64max then some (a + b) else none

/-- Rust `as u64` cast applied to an `i64` value: reduction modulo `2 ^ 64`. -/
def i64AsU64 (x : Int) : Nat := (x % (2 ^ 64)).toNat

/-- Embedding of `get_start_index` (`src/tailr/src/lib.rs:190`).  The match
guards are translated in source order; the second Rust guard
`n < 0 && n.abs() > total` evaluates `n.abs()` whenever `n < 0`, so for
`n = i64::MIN` the function panics (outer `none`) before any comparison. -/
def get_start_index (take_val : TakeValue) (total : Int) : Option (Option Nat) :=
  match take_val with
  | .TakeNum n =>
    if n > 0 ∧ n > total then some none
    else if n < 0 then
      match absI64 n with
      | none => none
      | some a =>
        if a > total then some (some 0)
        else
          match checkedAddI64 total n with
          | none => none
          | some s => some (some (i64AsU64 s))
    else if n > 0 then some (some (i64AsU64 (n - 1)))
    else some none
  | .PlusZero => if total = 0 then some none else some (some 0)

/-- Value of an unsigned decimal digit string, most significant digit first. -/
def digitsToNat (cs : List Char) : Nat :=
  cs.foldl (fun a c => 10 * a + (c.toNat - 48)) 0

/-- Embedding of Rust `str::parse::<i64>`: an optional leading `+` or `-`
followed by one or more ASCII digits, rejected on overflow of the `i64`
range. -/
def parseI64 (val : List Char) : Option Int :=
  match val with
  | [] => none
  | c :: cs =>
    let digits := if c = '+' ∨ c = '-' then cs else c :: cs
    if digits ≠ [] ∧ ∀ d ∈ digits, d.isDigit = true then
      let v : Int := if c = '-' then -(digitsToNat digits : Int) else (digitsToNat digits : Int)
      if i64min ≤ v ∧ v ≤ i64max then some v else none
    else none

/-- The regex `^[+]0$` of `parse_num`. -/
def plusZeroMatch (val : List Char) : Bool := decide (val = ['+', '0'])

/-- The regex `^[+-][0-9]+$` of `parse_num`. -/
def plusOrMinusMatch (val : List Char) : Bool :=
  match val with
  | [] => false
  | c :: cs => decide ((c = '+' ∨ c = '-') ∧ cs ≠ [] ∧ ∀ d ∈ cs, d.isDigit = true)

/-- Result type of `parse_num`: `MyResult<TakeValue>` with the error text
carried verbatim. -/
inductive ParseResult where
  | ok : TakeValue → ParseResult
  | error : List Char → ParseResult
deriving DecidableEq, Repr

/-- Embedding of `parse_num` (`src/tailr/src/lib.rs:112`). -/
def parse_num (val : List Char) : ParseResult :=
  match parseI64 val with
  | some n =>
    if plusZeroMatch val then .ok .PlusZero
    else if plusOrMinusMatch val then .ok (.TakeNum n)
    else .ok (.TakeNum (-n))
  | none => .error val

/-- The UTF-8 replacement character U+FFFD as its three encoded bytes, used by
`String::from_utf8_lossy` for every invalid sequence. -/
def utf8Rep : List Nat := [0xEF, 0xBF, 0xBD]

/-- UTF-8 continuation byte: `0x80 ≤ b ≤ 0xBF`. -/
def isCont (b : Nat) : Bool := decide (0x80 ≤ b ∧ b ≤ 0xBF)

/-- Admissible second byte after a three-byte lead, per the Rust standard
library UTF-8 validation tables. -/
def utf8Snd3Ok (b c : Nat) : Bool :=
  if b = 0xE0 then decide (0xA0 ≤ c ∧ c ≤ 0xBF)
  else if b = 0xED then decide (0x80 ≤ c ∧ c ≤ 0x9F)
  else isCont c

/-- Admissible second byte after a four-byte lead, per the Rust standard
library UTF-8 validation tables. -/
def utf8Snd4Ok (b c : Nat) : Bool :=
  if b = 0xF0 then decide (0x90 ≤ c ∧ c ≤ 0xBF)
  else if b = 0xF4 then decide (0x80 ≤ c ∧ c ≤ 0x8F)
  else isCont c

/-- Worker for `utf8Lossy`, structurally recursive on a fuel argument: every
step consumes at least one input byte, so fuel equal to the input length is
always sufficient and the out-of-fuel case is never reached from
`utf8Lossy`. -/
def utf8LossyFuel : Nat → List Nat → List Nat
  | 0, _ => []
  | _ + 1, [] => []
  | fuel + 1, b :: l =>
    if b ≤ 0x7F then b :: utf8LossyFuel fuel l
    else if 0xC2 ≤ b ∧ b ≤ 0xDF then
      match l with
      | [] => utf8Rep
      | c :: l2 =>
        if isCont c then b :: c :: utf8LossyFuel fuel l2
        else utf8Rep ++ utf8LossyFuel fuel (c :: l2)
    else if 0xE0 ≤ b ∧ b ≤ 0xEF then
      match l with
      | [] => utf8Rep
      | c :: l2 =>
        if utf8Snd3Ok b c then
          match l2 with
          | [] => utf8Rep
          | d :: l3 =>
            if isCont d then b :: c :: d :: utf8LossyFuel fuel l3
            else utf8Rep ++ utf8LossyFuel fuel (d :: l3)
        else utf8Rep ++ utf8LossyFuel fuel (c :: l2)
    else if 0xF0 ≤ b ∧ b ≤ 0xF4 then
      match l with
      | [] => utf8Rep
      | c :: l2 =>
        if utf8Snd4Ok b c then
          match l2 with
          | [] => utf8Rep
          | d :: l3 =>
            if isCont d then
              match l3 with
              | [] => utf8Rep
              | e :: l4 =>
                if isCont e then b :: c :: d :: e :: utf8LossyFuel fuel l4
                else utf8Rep ++ utf8LossyFuel fuel (e :: l4)
            else utf8Rep ++ utf8LossyFuel fuel (d :: l3)
        else utf8Rep ++ utf8LossyFuel fuel (c :: l2)
    else utf8Rep ++ utf8LossyFuel fuel l

/-- Embedding of `String::from_utf8_lossy` re-encoded to bytes: valid UTF-8
sequences are copied through, every maximal invalid subpart is replaced by the
three bytes of U+FFFD, matching the Rust standard library's error lengths
(invalid lead: one byte; invalid continuation: the bytes accepted so far;
truncated sequence at end of input: the whole tail). -/
def utf8Lossy (l : List Nat) : List Nat := utf8LossyFuel l.length l

/-- Validity of a byte list as UTF-8, with the same case structure as
`utf8Lossy`. -/
def utf8Valid : List Nat → Bool
  | [] => true
  | b :: l =>
    if b ≤ 0x7F then utf8Valid l
    else if 0xC2 ≤ b ∧ b ≤ 0xDF then
      match l with
      | [] => false
      | c :: l2 => isCont c && utf8Valid l2
    else if 0xE0 ≤ b ∧ b ≤ 0xEF then
      match l with
      | [] => false
      | c :: l2 =>
        utf8Snd3Ok b c &&
          match l2 with
          | [] => false
          | d :: l3 => isCont d && utf8Valid l3
    else if 0xF0 ≤ b ∧ b ≤ 0xF4 then
      match l with
      | [] => false
      | c :: l2 =>
        utf8Snd4Ok b c &&
          match l2 with
          | [] => false
          | d :: l3 =>
            isCont d &&
              match l3 with
              | [] => false
              | e :: l4 => isCont e && utf8Valid l4
    else false

/-- Chunking performed by `BufRead::read_until(b'\n')` in a loop: each chunk
extends up to and including the next `0x0A` byte, a final chunk without a
terminator is kept, and no empty trailing chunk is produced.  `acc` is the
partial chunk read so far. -/
def splitLinesAux : List Nat → List Nat → List (List Nat)
  | [], acc => if acc.isEmpty then [] else [acc]
  | b :: rest, acc =>
    if b = 10 then (acc ++ [b]) :: splitLinesAux rest []
    else splitLinesAux rest (acc ++ [b])

/-- The list of lines (terminators included) of a byte stream. -/
def splitLines (content : List Nat) : List (List Nat) :=
  splitLinesAux content []

/-- The `read_line` loop of `count_lines_bytes`, over the chunk list, with
`k` the current value of the `lines` counter.  Per chunk, in source order:
`read_line` fails with an `InvalidData` error on a chunk that is not valid
UTF-8 (`some none`, propagated by `?`); then `lines += 1` is an `i32`
increment — nothing in the source constrains `lines` beyond this increment
and the final `lines as i64` cast, so Rust's integer fallback makes it an
`i32` — which overflows past `i32::MAX`, a panic in a debug build (`none`). -/
def countLoop : Nat → List (List Nat) → Option (Option Nat)
  | k, [] => some (some k)
  | k, ln :: rest =>
    if utf8Valid ln then
      if k + 1 > 2 ^ 31 - 1 then none
      else countLoop (k + 1) rest
    else some none

/-- Embedding of `count_lines_bytes` (`src/tailr/src/lib.rs:124`): run the
counting loop over the chunks of the stream; a panic (`i32` overflow of the
`lines` counter) is the outer `none`, a propagated `read_line` error is
`some none`, and on success the line and byte counts are returned (the
`lines as i64` cast is exact for an in-range count). -/
def count_lines_bytes (content : List Nat) : Option (Option (Int × Int)) :=
  match countLoop 0 (splitLines content) with
  | none => none
  | some none => some none
  | some (some lines) => some (some ((lines : Int), (content.length : Int)))

/-- The printing loop of `print_lines`: `i` is the running 0-based line index,
and each line with index at least `start` is printed through
`String::from_utf8_lossy`. -/
def printLinesLoop (start : Nat) : Nat → List (List Nat) → List Nat
  | _, [] => []
  | i, line :: rest =>
    (if start ≤ i then utf8Lossy line else []) ++ printLinesLoop start (i + 1) rest

/-- Embedding of `print_lines` (`src/tailr/src/lib.rs:146`): the bytes written
to standard output (outer `none` is a panic propagated from
`get_start_index`).  When the start index is `None` nothing is printed. -/
def print_lines (content : List Nat) (num_lines : TakeValue) (total_lines : Int) :
    Option (List Nat) :=
  match get_start_index num_lines total_lines with
  | none => none
  | some none => some []
  | some (some start) => some (printLinesLoop start 0 (splitLines content))

/-- Embedding of `print_bytes` (`src/tailr/src/lib.rs:170`): seek to `start`
(a seek past the end simply leaves nothing to read), read the remaining bytes,
and print them through `String::from_utf8_lossy`. -/
def print_bytes (content : List Nat) (num_bytes : TakeValue) (total_bytes : Int) :
    Option (List Nat) :=
  match get_start_index num_bytes total_bytes with
  | none => none
  | some none => some []
  | some (some start) => some (utf8Lossy (content.drop start))

/-- A file target as `run` sees it, together with the behaviour of the
surrounding environment: `bad` fails at `File::open` with the given error
text, `ioErr` opens successfully but fails with an I/O error at the earliest
read performed after opening (inside `count_lines_bytes`), and `good` opens
and reads without I/O errors and has the given content. -/
inductive FileSpec where
  | bad : List Nat → List Nat → FileSpec
  | ioErr : List Nat → List Nat → FileSpec
  | good : List Nat → List Nat → FileSpec
deriving DecidableEq, Repr

/-- Display name of a file target. -/
def fileName : FileSpec → List Nat
  | .bad n _ => n
  | .ioErr n _ => n
  | .good n _ => n

/-- Content of a `good` file target. -/
def fileContent : FileSpec → List Nat
  | .good _ c => c
  | .bad _ _ => []
  | .ioErr _ _ => []

/-- Result of `run`: `Ok(())` or the propagated error text. -/
inductive RunResult where
  | ok : RunResult
  | error : List Nat → RunResult
deriving DecidableEq, Repr

/-- The `Config` struct of `tailr` (argument parsing is outside the core). -/
structure Config where
  files : List FileSpec
  lines : TakeValue
  bytes : Option TakeValue
  quiet : Bool

/-- Bytes of an ASCII string literal. -/
def asciiStr (s : String) : List Nat := s.data.map Char.toNat

/-- The header `println!("{}==> {} <==", …)` of `run`: printed only when the
quiet flag is unset and more than one file was given, preceded by a newline
exactly when the file is not the first one. -/
def header (quiet : Bool) (numFiles num : Nat) (name : List Nat) : List Nat :=
  if !quiet ∧ numFiles > 1 then
    (if num > 0 then [10] else []) ++ asciiStr "==> " ++ name ++ asciiStr " <==" ++ [10]
  else []

/-- The diagnostic `eprintln!("{}: {}", filename, e)` for an open failure. -/
def openDiag (name e : List Nat) : List Nat := name ++ asciiStr ": " ++ e

/-- Error text of the `InvalidData` I/O error produced by `read_line` on a
stream that is not valid UTF-8. -/
def invalidUtf8Msg : List Nat := asciiStr "stream did not contain valid UTF-8"

/-- The loop body of `run` (`src/tailr/src/lib.rs:86`) over the remaining
files.  Produces the bytes written to standard output, the diagnostic lines
written to standard error, and the `MyResult` value of `run`; an outer `none`
is a panic.  An open failure prints a diagnostic and continues; after a
successful open the header is printed, then `count_lines_bytes(...)?` and the
print call propagate any failure with `?`, ending the loop early. -/
def runLoop (quiet : Bool) (numFiles : Nat) (lines : TakeValue) (obytes : Option TakeValue) :
    Nat → List FileSpec → Option (List Nat × List (List Nat) × RunResult)
  | _, [] => some ([], [], .ok)
  | num, f :: rest =>
    match f with
    | .bad name e =>
      match runLoop quiet numFiles lines obytes (num + 1) rest with
      | none => none
      | some (out, errs, res) => some (out, openDiag name e :: errs, res)
    | .ioErr name e => some (header quiet numFiles num name, [], .error e)
    | .good name content =>
      match count_lines_bytes content with
      | none => none
      | some none => some (header quiet numFiles num name, [], .error invalidUtf8Msg)
      | some (some (total_lines, total_bytes)) =>
        match (match obytes with
               | some num_bytes => print_bytes content num_bytes total_bytes
               | none => print_lines content lines total_lines) with
        | none => none
        | some body =>
          match runLoop quiet numFiles lines obytes (num + 1) rest with
          | none => none
          | some (out, errs, res) =>
            some (header quiet numFiles num name ++ body ++ out, errs, res)

/-- Embedding of `run` (`src/tailr/src/lib.rs:86`). -/
def run (config : Config) : Option (List Nat × List (List Nat) × RunResult) :=
  runLoop config.quiet config.files.length config.lines config.bytes 0 config.files

/-- Modelled from the spec: the policy table of §4.2 for
`start_offset(selection, total)`, row by row: `FromStart(n)` (positive `n`)
gives `None` when `n > total` and index `n - 1` otherwise; `FromEnd(0)` gives
`None`; `FromEnd(n)` gives index `total - |n|` when `0 < |n| ≤ total` and
index `0` when `|n| > total`; `FromFirstNew` (`PlusZero`) gives `None` on an
empty stream and index `0` otherwise. -/
def start_offset_spec (tv : TakeValue) (total : Int) : Option Nat :=
  match tv with
  | .TakeNum n =>
    if 0 < n then (if total < n then none else some (n - 1).toNat)
    else if n = 0 then none
    else if |n| ≤ total then some (total - |n|).toNat
    else some 0
  | .PlusZero => if total = 0 then none else some 0

/-- The constraint, implicit in the Rust types, that a `TakeValue` carries an
`i64`. -/
def tvInI64 : TakeValue → Prop
  | .PlusZero => True
  | .TakeNum n => i64min ≤ n ∧ n ≤ i64max

/-- Sequential composition of the outcome of a prefix of the file loop with
the outcome for the remaining files: a panic or an early `?` return in the
prefix short-circuits, otherwise outputs and diagnostics concatenate. -/
def seqComp :
    Option (List Nat × List (List Nat) × RunResult) →
    Option (List Nat × List (List Nat) × RunResult) →
    Option (List Nat × List (List Nat) × RunResult)
  | none, _ => none
  | some (o, e, .error m), _ => some (o, e, .error m)
  | some (_, _, .ok), none => none
  | some (o, e, .ok), some (o2, e2, r) => some (o ++ o2, e ++ e2, r)

/-- Indexed map: `withIdx f i [x0, x1, ...] = [f i x0, f (i+1) x1, ...]`. -/
def withIdx (f : Nat → FileSpec → List Nat) : Nat → List FileSpec → List (List Nat)
  | _, [] => []
  | i, x :: xs => f i x :: withIdx f (i + 1) xs

/-- The body output of a successfully processed file: the selected print
function applied with the totals that `count_lines_bytes` computes for its
content. -/
def bodyOut (lines : TakeValue) (obytes : Option TakeValue) (content : List Nat) : List Nat :=
  (match obytes with
   | some num_bytes => print_bytes content num_bytes (content.length : Int)
   | none => print_lines content lines ((splitLines content).length : Int)).getD []

/-- A `good` file whose content passes the per-line UTF-8 check of
`read_line`, whose line count fits the `i32` counter of `count_lines_bytes`,
and whose byte count is within the `i64` range (as any real file's is). -/
def isGoodFile : FileSpec → Bool
  | .good _ content =>
    (splitLines content).all (fun ln => utf8Valid ln) &&
      decide ((splitLines content).length ≤ 2 ^ 31 - 1) &&
      decide ((content.length : Int) ≤ i64max)
  | .bad _ _ => false
  | .ioErr _ _ => false

/-- The selector the loop actually uses (the byte one when present, otherwise
the line one) is not `TakeNum i64::MIN`, so `get_start_index` cannot panic. -/
def selOk (lines : TakeValue) (obytes : Option TakeValue) : Bool :=
  match obytes with
  | some num_bytes => decide (num_bytes ≠ .TakeNum i64min)
  | none => decide (lines ≠ .TakeNum i64min)

theorem i64min_eq : i64min = -9223372036854775808 := by norm_num [i64min]

theorem i64max_eq : i64max = 9223372036854775807 := by norm_num [i64max]

theorem i64AsU64_eq_toNat (x : Int) (h0 : 0 ≤ x) (h1 : x < 2 ^ 64) :
    i64AsU64 x = x.toNat := by
  unfold i64AsU64
  rw [Int.emod_eq_of_lt h0 h1]

theorem gsi_zero_eq (total : Int) : get_start_index (.TakeNum 0) total = some none := by
  simp [get_start_index]

theorem gsi_pos_eq (n total : Int) (hn : 0 < n) :
    get_start_index (.TakeNum n) total =
      if total < n then some none else some (some (i64AsU64 (n - 1))) := by
  have h1 : ¬ n < 0 := by omega
  by_cases h : total < n
  · have h2 : n > 0 ∧ n > total := by omega
    simp [get_start_index, h2, h]
  · have h2 : ¬ (n > 0 ∧ n > total) := by omega
    simp [get_start_index, h1, h2, hn, h]

theorem gsi_min_eq (total : Int) : get_start_index (.TakeNum i64min) total = none := by
  have hneg : i64min < 0 := by decide
  have h2 : ¬ ((i64min : Int) > 0 ∧ (i64min : Int) > total) := by
    intro h
    exact absurd h.1 (by omega)
  simp [get_start_index, h2, hneg, absI64]

theorem gsi_neg_eq (n total : Int) (hn : n < 0) (hne : n ≠ i64min) :
    get_start_index (.TakeNum n) total =
      if (n.natAbs : Int) > total then some (some 0)
      else if i64min ≤ total + n ∧ total + n ≤ i64max then some (some (i64AsU64 (total + n)))
      else none := by
  have h2 : ¬ (n > 0 ∧ n > total) := by omega
  have h3 : absI64 n = some (n.natAbs : Int) := by simp [absI64, hne]
  simp only [get_start_index, if_neg h2, if_pos hn, h3, checkedAddI64]
  by_cases hcap : (n.natAbs : Int) > total
  · rw [if_pos hcap, if_pos hcap]
  · rw [if_neg hcap, if_neg hcap]
    by_cases hadd : i64min ≤ total + n ∧ total + n ≤ i64max
    · rw [if_pos hadd, if_pos hadd]
    · rw [if_neg hadd, if_neg hadd]

theorem gsi_eq_spec (tv : TakeValue) (total : Int) (hmin : tv ≠ .TakeNum i64min)
    (h0 : 0 ≤ total) (h1 : total ≤ i64max) :
    get_start_index tv total = some (start_offset_spec tv total) := by
  cases tv with
  | PlusZero =>
    by_cases h : total = 0 <;> simp [get_start_index, start_offset_spec, h]
  | TakeNum n =>
    have hne : n ≠ i64min := fun h => hmin (congrArg TakeValue.TakeNum h)
    have hmax64 : i64max < 2 ^ 64 := by rw [i64max_eq]; omega
    rcases lt_trichotomy n 0 with hlt | rfl | hgt
    · rw [gsi_neg_eq n total hlt hne]
      have habs : |n| = (n.natAbs : Int) := Int.abs_eq_natAbs n
      have hn0 : ¬ 0 < n := by omega
      have hnz : n ≠ 0 := by omega
      by_cases hcap : (n.natAbs : Int) > total
      · have hs : ¬ |n| ≤ total := by omega
        simp [start_offset_spec, hn0, hnz, hs, hcap]
      · have hs : |n| ≤ total := by omega
        have hnn : 0 ≤ total + n := by omega
        have hadd : i64min ≤ total + n ∧ total + n ≤ i64max := by
          have hminneg : i64min < 0 := by decide
          omega
        rw [if_neg hcap, if_pos hadd]
        have : i64AsU64 (total + n) = (total + n).toNat :=
          i64AsU64_eq_toNat _ hnn (by omega)
        simp [start_offset_spec, hn0, hnz, hs, this]
        congr 1
        omega
    · simp [gsi_zero_eq, start_offset_spec]
    · rw [gsi_pos_eq n total hgt]
      by_cases h : total < n
      · simp [start_offset_spec, hgt, h]
      · have : i64AsU64 (n - 1) = (n - 1).toNat :=
          i64AsU64_eq_toNat _ (by omega) (by omega)
        simp [start_offset_spec, hgt, h, this]

theorem isDigit_not_sign {c : Char} (h : c.isDigit = true) : ¬ (c = '+' ∨ c = '-') := by
  rintro (rfl | rfl) <;> exact absurd h (by decide)

theorem parseI64_digits (c : Char) (cs : List Char)
    (hd : ∀ d ∈ c :: cs, d.isDigit = true)
    (hle : (digitsToNat (c :: cs) : Int) ≤ i64max) :
    parseI64 (c :: cs) = some ((digitsToNat (c :: cs) : Nat) : Int) := by
  have hc : c.isDigit = true := hd c (by simp)
  have hplus : ¬ (c = '+' ∨ c = '-') := isDigit_not_sign hc
  have hcm : ¬ c = '-' := fun h => hplus (Or.inr h)
  have hlo : i64min ≤ (digitsToNat (c :: cs) : Int) :=
    le_trans (le_of_lt (by decide)) (Int.natCast_nonneg _)
  simp only [parseI64]
  rw [if_neg hplus, if_pos ⟨List.cons_ne_nil c cs, hd⟩, if_neg hcm, if_pos ⟨hlo, hle⟩]

theorem parseI64_signed_inv (c : Char) (cs : List Char) (n : Int)
    (hc : c = '+' ∨ c = '-') (h : parseI64 (c :: cs) = some n) :
    cs ≠ [] ∧ (∀ d ∈ cs, d.isDigit = true) ∧
      n = (if c = '-' then -(digitsToNat cs : Int) else (digitsToNat cs : Int)) ∧
      i64min ≤ n ∧ n ≤ i64max := by
  simp only [parseI64] at h
  rw [if_pos hc] at h
  by_cases hg : cs ≠ [] ∧ ∀ d ∈ cs, d.isDigit = true
  · rw [if_pos hg] at h
    by_cases hr : i64min ≤ (if c = '-' then -(digitsToNat cs : Int) else (digitsToNat cs : Int)) ∧
        (if c = '-' then -(digitsToNat cs : Int) else (digitsToNat cs : Int)) ≤ i64max
    · rw [if_pos hr] at h
      have hn := Option.some.inj h
      exact ⟨hg.1, hg.2, hn.symm, hn ▸ hr.1, hn ▸ hr.2⟩
    · rw [if_neg hr] at h
      exact absurd h (by simp)
  · rw [if_neg hg] at h
    exact absurd h (by simp)

theorem plusZeroMatch_ne {val : List Char} (h : val ≠ ['+', '0']) :
    plusZeroMatch val = false := by
  simp only [plusZeroMatch, decide_eq_false_iff_not]
  exact h

theorem plusOrMinusMatch_true {c : Char} {cs : List Char} (hc : c = '+' ∨ c = '-')
    (h1 : cs ≠ []) (h2 : ∀ d ∈ cs, d.isDigit = true) :
    plusOrMinusMatch (c :: cs) = true := by
  simp only [plusOrMinusMatch, decide_eq_true_eq]
  exact ⟨hc, h1, h2⟩

theorem plusOrMinusMatch_digits {c : Char} {cs : List Char} (hc : c.isDigit = true) :
    plusOrMinusMatch (c :: cs) = false := by
  simp only [plusOrMinusMatch, decide_eq_false_iff_not]
  intro hh
  exact isDigit_not_sign hc hh.1

theorem parseI64_digits_overflow (c : Char) (cs : List Char)
    (hd : ∀ d ∈ c :: cs, d.isDigit = true)
    (hgt : i64max < (digitsToNat (c :: cs) : Int)) :
    parseI64 (c :: cs) = none := by
  have hc : c.isDigit = true := hd c (by simp)
  have hplus : ¬ (c = '+' ∨ c = '-') := isDigit_not_sign hc
  have hcm : ¬ c = '-' := fun h => hplus (Or.inr h)
  simp only [parseI64]
  rw [if_neg hplus, if_pos ⟨List.cons_ne_nil c cs, hd⟩, if_neg hcm,
    if_neg (fun h => absurd h.2 (not_le.mpr hgt))]

theorem gsi_neg_val (n total : Int) (hn : n < 0) (hnmin : i64min < n)
    (h0 : 0 ≤ total) (h1 : total ≤ i64max) :
    get_start_index (.TakeNum n) total = some (some ((max (total + n) 0).toNat)) := by
  rw [gsi_neg_eq n total hn (by omega)]
  by_cases hcap : (n.natAbs : Int) > total
  · rw [if_pos hcap]
    have hmx : max (total + n) 0 = 0 := by omega
    rw [hmx]
    rfl
  · rw [if_neg hcap]
    have hnn : 0 ≤ total + n := by omega
    have hadd : i64min ≤ total + n ∧ total + n ≤ i64max := by
      have hlt0 : i64min < 0 := by decide
      omega
    rw [if_pos hadd]
    have hp64 : (2 : Int) ^ 64 = 18446744073709551616 := by norm_num
    have hmx : i64max = 9223372036854775807 := i64max_eq
    rw [i64AsU64_eq_toNat _ hnn (by omega)]
    have hmax : max (total + n) 0 = total + n := by omega
    rw [hmax]

/-- C1 (amended): for every total within the `i64` range and every parsed
selection other than `TakeNum i64::MIN`, `get_start_index` implements the
offset-computation policy table of the spec exactly, and for positive `n` the
result is `None` if and only if `n > total`. -/
theorem C1_start_index_policy (tv : TakeValue) (total : Int)
    (hmin : tv ≠ .TakeNum i64min) (h0 : 0 ≤ total) (h1 : total ≤ i64max) :
    get_start_index tv total = some (start_offset_spec tv total) ∧
    (∀ n : Int, 0 < n →
       (get_start_index (.TakeNum n) total = some none ↔ total < n)) := by
  refine ⟨gsi_eq_spec tv total hmin h0 h1, ?_⟩
  intro n hn
  rw [gsi_pos_eq n total hn]
  by_cases h : total < n
  · simp [h]
  · simp [h]

/-- C1 counterexample: `TakeNum i64::MIN` is a parsed selection (it is the
result of parsing the text `-9223372036854775808`), but `get_start_index`
panics on it (`n.abs()` overflows), instead of returning `Some 0` as the
policy table row `|n| > total` requires. -/
theorem C1_counterexample :
    parse_num ['-', '9', '2', '2', '3', '3', '7', '2', '0', '3', '6', '8', '5',
        '4', '7', '7', '5', '8', '0', '8'] = .ok (.TakeNum i64min) ∧
    get_start_index (.TakeNum i64min) 0 = none ∧
    get_start_index (.TakeNum i64min) 0 ≠ some (some 0) := by
  refine ⟨by decide, gsi_min_eq 0, ?_⟩
  rw [gsi_min_eq 0]
  simp

theorem C1_witness :
    get_start_index (.TakeNum 2) 3 = some (start_offset_spec (.TakeNum 2) 3) ∧
    (get_start_index (.TakeNum 5) 3 = some none ↔ (3 : Int) < 5) :=
  ⟨(C1_start_index_policy (.TakeNum 2) 3 (by decide) (by decide) (by decide)).1,
   (C1_start_index_policy (.TakeNum 2) 3 (by decide) (by decide) (by decide)).2 5
     (by decide)⟩

/-- C2: `parse_num` implements the sign convention exactly: a bare digit
string `n` yields `TakeNum (-n)`; a `-`-prefixed integer yields the parsed
(negative or zero) value unchanged, including the exact text of `i64::MIN`;
a `+`-prefixed integer yields the parsed value, except that the exact text
`+0` yields the distinct `PlusZero`; and any text that does not parse as an
`i64` (including out-of-range magnitudes) yields an error carrying the
offending input verbatim. -/
theorem C2_parse_num_spec (val : List Char) :
    (val ≠ [] → (∀ c ∈ val, c.isDigit = true) → (digitsToNat val : Int) ≤ i64max →
       parse_num val = .ok (.TakeNum (-(digitsToNat val : Int)))) ∧
    (∀ n : Int, parseI64 val = some n → val.head? = some '-' →
       parse_num val = .ok (.TakeNum n)) ∧
    (∀ n : Int, parseI64 val = some n → val.head? = some '+' → val ≠ ['+', '0'] →
       parse_num val = .ok (.TakeNum n)) ∧
    parse_num ['+', '0'] = .ok .PlusZero ∧
    parse_num ['-', '9', '2', '2', '3', '3', '7', '2', '0', '3', '6', '8', '5',
        '4', '7', '7', '5', '8', '0', '8'] = .ok (.TakeNum i64min) ∧
    (val ≠ [] → (∀ c ∈ val, c.isDigit = true) → i64max < (digitsToNat val : Int) →
       parse_num val = .error val) ∧
    (parseI64 val = none → parse_num val = .error val) := by
  refine ⟨?_, ?_, ?_, by decide, by decide, ?_, ?_⟩
  · intro hne hd hle
    obtain ⟨c, cs, rfl⟩ : ∃ c cs, val = c :: cs := by
      cases val with
      | nil => exact absurd rfl hne
      | cons c cs => exact ⟨c, cs, rfl⟩
    have hc : c.isDigit = true := hd c (by simp)
    have hne2 : (c :: cs) ≠ ['+', '0'] := by
      intro hh
      rw [List.cons.injEq] at hh
      exact isDigit_not_sign hc (Or.inl hh.1)
    unfold parse_num
    rw [parseI64_digits c cs hd hle]
    simp [plusZeroMatch_ne hne2, plusOrMinusMatch_digits hc]
  · intro n hp hh
    obtain ⟨c, cs, rfl⟩ : ∃ c cs, val = c :: cs := by
      cases val with
      | nil => exact absurd hh (by simp)
      | cons c cs => exact ⟨c, cs, rfl⟩
    have hcm : c = '-' := by
      have := Option.some.inj hh
      simpa using this
    subst hcm
    obtain ⟨h1, h2, _, _, _⟩ := parseI64_signed_inv _ cs n (Or.inr rfl) hp
    have hne2 : ('-' :: cs) ≠ ['+', '0'] := by
      intro hh2
      rw [List.cons.injEq] at hh2
      exact absurd hh2.1 (by decide)
    unfold parse_num
    rw [hp]
    simp [plusZeroMatch_ne hne2, plusOrMinusMatch_true (Or.inr rfl) h1 h2]
  · intro n hp hh hne2
    obtain ⟨c, cs, rfl⟩ : ∃ c cs, val = c :: cs := by
      cases val with
      | nil => exact absurd hh (by simp)
      | cons c cs => exact ⟨c, cs, rfl⟩
    have hcp : c = '+' := by
      have := Option.some.inj hh
      simpa using this
    subst hcp
    obtain ⟨h1, h2, _, _, _⟩ := parseI64_signed_inv _ cs n (Or.inl rfl) hp
    unfold parse_num
    rw [hp]
    simp [plusZeroMatch_ne hne2, plusOrMinusMatch_true (Or.inl rfl) h1 h2]
  · intro hne hd hgt
    obtain ⟨c, cs, rfl⟩ : ∃ c cs, val = c :: cs := by
      cases val with
      | nil => exact absurd rfl hne
      | cons c cs => exact ⟨c, cs, rfl⟩
    unfold parse_num
    rw [parseI64_digits_overflow c cs hd hgt]
  · intro hp
    unfold parse_num
    rw [hp]

theorem C2_witness :
    parse_num ['3'] = .ok (.TakeNum (-(digitsToNat ['3'] : Int))) ∧
    parse_num ['-', '4'] = .ok (.TakeNum (-4)) ∧
    parse_num ['+', '5'] = .ok (.TakeNum 5) ∧
    parse_num ['x'] = .error ['x'] :=
  ⟨(C2_parse_num_spec ['3']).1 (by decide) (by decide) (by decide),
   (C2_parse_num_spec ['-', '4']).2.1 (-4) (by decide) (by decide),
   (C2_parse_num_spec ['+', '5']).2.2.1 5 (by decide) (by decide) (by decide),
   (C2_parse_num_spec ['x']).2.2.2.2.2.2 (by decide)⟩

/-- C5 counterexample: for `TakeNum i64::MIN` the guard `n < 0 && n.abs() > total`
evaluates `i64::MIN.abs()`, whose result is not representable: the
overflow/panic branch is reached. -/
theorem C5_counterexample :
    get_start_index (.TakeNum i64min) 0 = none ∧ absI64 i64min = none :=
  ⟨gsi_min_eq 0, by simp [absI64]⟩

/-- C5 (amended): for every `TakeValue` other than `TakeNum i64::MIN` and
every total in `[0, i64::MAX]`, `get_start_index` performs no overflow or
underflow: the panic branch is unreachable. -/
theorem C5_no_overflow (tv : TakeValue) (total : Int)
    (hmin : tv ≠ .TakeNum i64min) (h0 : 0 ≤ total) (h1 : total ≤ i64max) :
    get_start_index tv total ≠ none := by
  rw [gsi_eq_spec tv total hmin h0 h1]
  simp

theorem C5_witness : get_start_index (.TakeNum (-5)) 3 ≠ none :=
  C5_no_overflow (.TakeNum (-5)) 3 (by decide) (by decide) (by decide)

/-- C8: for negative counts (with representable magnitudes), a larger
magnitude never gives a larger start index, and once the magnitude exceeds
the total the result stays `Some 0`. -/
theorem C8_monotone (n m total : Int) (h0 : 0 ≤ total) (h1 : total ≤ i64max)
    (hn : n < 0) (hm : m < 0) (hnmin : i64min < n) (hmmin : i64min < m)
    (hmag : |n| ≤ |m|) :
    ∃ i j : Nat, get_start_index (.TakeNum m) total = some (some i) ∧
      get_start_index (.TakeNum n) total = some (some j) ∧ i ≤ j ∧
      (total < |n| → get_start_index (.TakeNum n) total = some (some 0)) := by
  refine ⟨(max (total + m) 0).toNat, (max (total + n) 0).toNat,
    gsi_neg_val m total hm hmmin h0 h1, gsi_neg_val n total hn hnmin h0 h1, ?_, ?_⟩
  · have habsn : |n| = (n.natAbs : Int) := Int.abs_eq_natAbs n
    have habsm : |m| = (m.natAbs : Int) := Int.abs_eq_natAbs m
    rw [habsn, habsm] at hmag
    omega
  · intro hcap
    rw [gsi_neg_val n total hn hnmin h0 h1]
    have habsn : |n| = (n.natAbs : Int) := Int.abs_eq_natAbs n
    rw [habsn] at hcap
    have hmx : max (total + n) 0 = 0 := by omega
    rw [hmx]
    rfl

theorem C8_witness :
    ∃ i j : Nat, get_start_index (.TakeNum (-5)) 10 = some (some i) ∧
      get_start_index (.TakeNum (-2)) 10 = some (some j) ∧ i ≤ j ∧
      ((10 : Int) < |(-2 : Int)| → get_start_index (.TakeNum (-2)) 10 = some (some 0)) :=
  C8_monotone (-2) (-5) 10 (by decide) (by decide) (by decide) (by decide)
    (by decide) (by decide) (by decide)

/-- C9: for every `i64`-ranged `TakeValue` other than `TakeNum i64::MIN` and
every non-negative total, a returned start index never exceeds the total, so
the byte-mode seek stays within the stream and the line-mode start index
never exceeds the line count. -/
theorem C9_start_le_total (tv : TakeValue) (total : Int) (i : Nat)
    (hmin : tv ≠ .TakeNum i64min) (hrange : tvInI64 tv) (h0 : 0 ≤ total)
    (h : get_start_index tv total = some (some i)) : (i : Int) ≤ total := by
  cases tv with
  | PlusZero =>
    by_cases ht : total = 0
    · rw [ht] at h
      simp [get_start_index] at h
    · simp [get_start_index, ht] at h
      omega
  | TakeNum n =>
    obtain ⟨hlo, hhi⟩ := hrange
    rcases lt_trichotomy n 0 with hlt | rfl | hgt
    · have hnmin : i64min < n := lt_of_le_of_ne hlo
        (fun hh => hmin (congrArg TakeValue.TakeNum hh.symm))
      rw [gsi_neg_eq n total hlt (by omega)] at h
      by_cases hcap : (n.natAbs : Int) > total
      · rw [if_pos hcap] at h
        have := Option.some.inj (Option.some.inj h)
        omega
      · rw [if_neg hcap] at h
        by_cases hadd : i64min ≤ total + n ∧ total + n ≤ i64max
        · rw [if_pos hadd] at h
          have hv := Option.some.inj (Option.some.inj h)
          have hnn : 0 ≤ total + n := by omega
          have hp64 : (2 : Int) ^ 64 = 18446744073709551616 := by norm_num
          have hmx : i64max = 9223372036854775807 := i64max_eq
          rw [i64AsU64_eq_toNat _ hnn (by omega)] at hv
          omega
        · rw [if_neg hadd] at h
          exact absurd h (by simp)
    · rw [gsi_zero_eq] at h
      exact absurd (Option.some.inj h) (by simp)
    · rw [gsi_pos_eq n total hgt] at h
      by_cases hht : total < n
      · rw [if_pos hht] at h
        exact absurd (Option.some.inj h) (by simp)
      · rw [if_neg hht] at h
        have hv := Option.some.inj (Option.some.inj h)
        have hp64 : (2 : Int) ^ 64 = 18446744073709551616 := by norm_num
        have hmx : i64max = 9223372036854775807 := i64max_eq
        rw [i64AsU64_eq_toNat _ (by omega) (by omega)] at hv
        omega

theorem C9_witness :
    get_start_index (.TakeNum (-1)) 3 = some (some 2) ∧ ((2 : Nat) : Int) ≤ 3 :=
  ⟨by decide,
   C9_start_le_total (.TakeNum (-1)) 3 2 (by decide) ⟨by decide, by decide⟩
     (by decide) (by decide)⟩

/-- C10: only the exact text `+0` is mapped to `PlusZero`; other `+`-prefixed
spellings of zero such as `+00` parse to `TakeNum 0`, for which
`get_start_index` returns `None` for every total, so the print functions emit
nothing even on a non-empty stream, unlike `+0`. -/
theorem C10_plus_zero_exact :
    parse_num ['+', '0', '0'] = .ok (.TakeNum 0) ∧
    parse_num ['+', '0', '0', '0'] = .ok (.TakeNum 0) ∧
    (∀ val : List Char, parse_num val = .ok .PlusZero → val = ['+', '0']) ∧
    (∀ total : Int, get_start_index (.TakeNum 0) total = some none) ∧
    (∀ (content : List Nat) (total : Int),
       print_bytes content (.TakeNum 0) total = some [] ∧
       print_lines content (.TakeNum 0) total = some []) ∧
    print_bytes [104] .PlusZero 1 = some [104] := by
  refine ⟨by decide, by decide, ?_, gsi_zero_eq, ?_, by decide⟩
  · intro val h
    cases hp : parseI64 val with
    | none =>
      simp only [parse_num, hp] at h
      exact absurd h (by simp)
    | some n =>
      simp only [parse_num, hp] at h
      by_cases hz : plusZeroMatch val = true
      · unfold plusZeroMatch at hz
        exact of_decide_eq_true hz
      · rw [if_neg hz] at h
        by_cases hpm : plusOrMinusMatch val = true
        · rw [if_pos hpm] at h
          exact absurd h (by simp)
        · rw [if_neg hpm] at h
          exact absurd h (by simp)
  · intro content total
    constructor
    · unfold print_bytes
      rw [gsi_zero_eq]
    · unfold print_lines
      rw [gsi_zero_eq]

theorem C10_witness :
    get_start_index (.TakeNum 0) 5 = some none ∧
    print_bytes [1, 2] (.TakeNum 0) 2 = some [] ∧
    (['+', '0'] : List Char) = ['+', '0'] :=
  ⟨C10_plus_zero_exact.2.2.2.1 5,
   (C10_plus_zero_exact.2.2.2.2.1 [1, 2] 2).1,
   C10_plus_zero_exact.2.2.1 ['+', '0'] (by decide)⟩

theorem splitLinesAux_join (l : List Nat) : ∀ acc : List Nat,
    (splitLinesAux l acc).flatten = acc ++ l := by
  induction l with
  | nil =>
    intro acc
    unfold splitLinesAux
    by_cases h : acc.isEmpty
    · rw [if_pos h]
      simp [List.isEmpty_iff.mp h]
    · rw [if_neg h]
      simp
  | cons b rest ih =>
    intro acc
    unfold splitLinesAux
    by_cases h : b = 10
    · rw [if_pos h, h]
      simp [List.flatten, ih []]
    · rw [if_neg h, ih (acc ++ [b])]
      simp

theorem splitLines_join (content : List Nat) : (splitLines content).flatten = content := by
  rw [splitLines, splitLinesAux_join content []]
  simp

theorem printLinesLoop_eq (start : Nat) (L : List (List Nat)) : ∀ i : Nat,
    printLinesLoop start i L = ((L.drop (start - i)).map utf8Lossy).flatten := by
  induction L with
  | nil =>
    intro i
    simp [printLinesLoop]
  | cons x xs ih =>
    intro i
    unfold printLinesLoop
    by_cases h : start ≤ i
    · rw [if_pos h]
      have hd : start - i = 0 := by omega
      have hd2 : start - (i + 1) = 0 := by omega
      rw [ih (i + 1), hd, hd2]
      simp [List.flatten]
    · rw [if_neg h]
      have hd : start - i = (start - (i + 1)) + 1 := by omega
      rw [ih (i + 1), hd]
      simp [List.drop_succ_cons]

theorem utf8LossyFuel_of_valid : ∀ (fuel : Nat) (l : List Nat), l.length ≤ fuel →
    utf8Valid l = true → utf8LossyFuel fuel l = l
  | fuel, [], _, _ => by cases fuel <;> rfl
  | 0, b :: l, hl, _ => by simp at hl
  | fuel + 1, b :: l, hl, hv => by
    have hlen : l.length ≤ fuel := by
      simp at hl
      omega
    by_cases h1 : b ≤ 0x7F
    · unfold utf8Valid at hv
      rw [if_pos h1] at hv
      unfold utf8LossyFuel
      rw [if_pos h1, utf8LossyFuel_of_valid fuel l hlen hv]
    · by_cases h2 : 0xC2 ≤ b ∧ b ≤ 0xDF
      · cases l with
        | nil =>
          unfold utf8Valid at hv
          rw [if_neg h1, if_pos h2] at hv
          simp at hv
        | cons c l2 =>
          unfold utf8Valid at hv
          rw [if_neg h1, if_pos h2] at hv
          simp only [Bool.and_eq_true] at hv
          obtain ⟨hc, hv2⟩ := hv
          unfold utf8LossyFuel
          rw [if_neg h1, if_pos h2]
          simp only [hc, if_true]
          rw [utf8LossyFuel_of_valid fuel l2 (by simp at hlen; omega) hv2]
      · by_cases h3 : 0xE0 ≤ b ∧ b ≤ 0xEF
        · cases l with
          | nil =>
            unfold utf8Valid at hv
            rw [if_neg h1, if_neg h2, if_pos h3] at hv
            simp at hv
          | cons c l2 =>
            unfold utf8Valid at hv
            rw [if_neg h1, if_neg h2, if_pos h3] at hv
            simp only [Bool.and_eq_true] at hv
            obtain ⟨hs, hrest⟩ := hv
            cases l2 with
            | nil => simp at hrest
            | cons d l3 =>
              simp only [Bool.and_eq_true] at hrest
              obtain ⟨hd', hv3⟩ := hrest
              unfold utf8LossyFuel
              rw [if_neg h1, if_neg h2, if_pos h3]
              simp only [hs, hd', if_true]
              rw [utf8LossyFuel_of_valid fuel l3 (by simp at hlen; omega) hv3]
        · by_cases h4 : 0xF0 ≤ b ∧ b ≤ 0xF4
          · cases l with
            | nil =>
              unfold utf8Valid at hv
              rw [if_neg h1, if_neg h2, if_neg h3, if_pos h4] at hv
              simp at hv
            | cons c l2 =>
              unfold utf8Valid at hv
              rw [if_neg h1, if_neg h2, if_neg h3, if_pos h4] at hv
              simp only [Bool.and_eq_true] at hv
              obtain ⟨hs, hrest⟩ := hv
              cases l2 with
              | nil => simp at hrest
              | cons d l3 =>
                simp only [Bool.and_eq_true] at hrest
                obtain ⟨hd', hrest2⟩ := hrest
                cases l3 with
                | nil => simp at hrest2
                | cons e l4 =>
                  simp only [Bool.and_eq_true] at hrest2
                  obtain ⟨he, hv4⟩ := hrest2
                  unfold utf8LossyFuel
                  rw [if_neg h1, if_neg h2, if_neg h3, if_pos h4]
                  simp only [hs, hd', he, if_true]
                  rw [utf8LossyFuel_of_valid fuel l4 (by simp at hlen; omega) hv4]
          · unfold utf8Valid at hv
            rw [if_neg h1, if_neg h2, if_neg h3, if_neg h4] at hv
            simp at hv

theorem utf8Lossy_of_valid (l : List Nat) (h : utf8Valid l = true) : utf8Lossy l = l :=
  utf8LossyFuel_of_valid l.length l le_rfl h

theorem map_utf8Lossy_of_valid (L : List (List Nat))
    (h : ∀ x ∈ L, utf8Valid x = true) : L.map utf8Lossy = L := by
  induction L with
  | nil => rfl
  | cons x xs ih =>
    simp only [List.map_cons]
    rw [utf8Lossy_of_valid x (h x (by simp)), ih (fun y hy => h y (by simp [hy]))]

/-- C3 (amended): given a computed start offset, byte mode emits the suffix of
the stream from that offset and line mode emits exactly the lines from that
index on (each including its terminator bytes, and the lines partition the
stream), both passed through `String::from_utf8_lossy`; the output is
byte-for-byte verbatim whenever the emitted bytes (per line, in line mode)
are valid UTF-8, but an invalid sequence is replaced by U+FFFD rather than
copied. -/
theorem C3_stream_output (content : List Nat) (tv : TakeValue) (total : Int) (start : Nat)
    (h : get_start_index tv total = some (some start)) :
    (utf8Valid (content.drop start) = true →
       print_bytes content tv total = some (content.drop start)) ∧
    ((∀ ln ∈ (splitLines content).drop start, utf8Valid ln = true) →
       print_lines content tv total = some (((splitLines content).drop start).flatten)) ∧
    (splitLines content).flatten = content := by
  refine ⟨?_, ?_, splitLines_join content⟩
  · intro hval
    simp only [print_bytes, h]
    rw [utf8Lossy_of_valid _ hval]
  · intro hval
    simp only [print_lines, h]
    rw [printLinesLoop_eq start (splitLines content) 0, Nat.sub_zero,
      map_utf8Lossy_of_valid _ hval]

/-- C3 counterexample: in byte mode on the single byte `0xFF` (not valid
UTF-8), the emitted bytes are the U+FFFD replacement sequence, not the
stream's suffix verbatim. -/
theorem C3_counterexample :
    print_bytes [255] (.TakeNum (-1)) 1 = some [239, 191, 189] ∧
    ([239, 191, 189] : List Nat) ≠ [255] := by decide

theorem C3_witness :
    print_bytes [104, 105, 10] (.TakeNum (-3)) 3 = some ([104, 105, 10].drop 0) ∧
    print_lines [104, 105, 10] (.TakeNum (-1)) 1 =
      some (((splitLines [104, 105, 10]).drop 0).flatten) :=
  ⟨(C3_stream_output [104, 105, 10] (.TakeNum (-3)) 3 0 (by decide)).1 (by decide),
   (C3_stream_output [104, 105, 10] (.TakeNum (-1)) 1 0 (by decide)).2.1 (by decide)⟩

theorem gsi_ne_none (tv : TakeValue) (total : Int) (hmin : tv ≠ .TakeNum i64min)
    (h0 : 0 ≤ total) (h1 : total ≤ i64max) : get_start_index tv total ≠ none := by
  rw [gsi_eq_spec tv total hmin h0 h1]
  simp

theorem splitLinesAux_length (l : List Nat) : ∀ acc : List Nat,
    (splitLinesAux l acc).length ≤ l.length + (if acc.isEmpty then 0 else 1) := by
  induction l with
  | nil =>
    intro acc
    unfold splitLinesAux
    by_cases h : acc.isEmpty
    · rw [if_pos h]
      simp [h]
    · rw [if_neg h]
      simp [h]
  | cons b rest ih =>
    intro acc
    unfold splitLinesAux
    by_cases h : b = 10
    · rw [if_pos h]
      have := ih []
      simp at this ⊢
      omega
    · rw [if_neg h]
      have := ih (acc ++ [b])
      simp at this ⊢
      split <;> omega

theorem splitLines_length (content : List Nat) :
    (splitLines content).length ≤ content.length := by
  have h := splitLinesAux_length content []
  simpa [splitLines] using h

theorem countLoop_ok : ∀ (L : List (List Nat)) (k : Nat),
    L.all (fun ln => utf8Valid ln) = true → k + L.length ≤ 2 ^ 31 - 1 →
    countLoop k L = some (some (k + L.length)) := by
  intro L
  induction L with
  | nil =>
    intro k _ _
    simp [countLoop]
  | cons ln rest ih =>
    intro k hval hcnt
    rw [List.all_cons, Bool.and_eq_true] at hval
    have h31 : (2 : Nat) ^ 31 = 2147483648 := by norm_num
    have hlc : k + (ln :: rest).length = (k + 1) + rest.length := by
      simp [List.length_cons]
      omega
    rw [hlc]
    unfold countLoop
    rw [if_pos hval.1, if_neg (by simp at hcnt; omega),
      ih (k + 1) hval.2 (by simp at hcnt; omega)]

theorem count_good (content : List Nat)
    (hval : (splitLines content).all (fun ln => utf8Valid ln) = true)
    (hcnt : (splitLines content).length ≤ 2 ^ 31 - 1) :
    count_lines_bytes content =
      some (some (((splitLines content).length : Int), (content.length : Int))) := by
  unfold count_lines_bytes
  rw [countLoop_ok (splitLines content) 0 hval (by omega)]
  simp

theorem bodyOut_bytes (lines nb : TakeValue) (content : List Nat)
    (hne : nb ≠ .TakeNum i64min) (hlen : (content.length : Int) ≤ i64max) :
    print_bytes content nb (content.length : Int) = some (bodyOut lines (some nb) content) := by
  unfold bodyOut
  cases hg : get_start_index nb (content.length : Int) with
  | none => exact absurd hg (gsi_ne_none nb _ hne (Int.natCast_nonneg _) hlen)
  | some r =>
    cases r with
    | none => simp [print_bytes, hg]
    | some st => simp [print_bytes, hg]

theorem bodyOut_lines (lines : TakeValue) (content : List Nat)
    (hne : lines ≠ .TakeNum i64min) (hlen : (content.length : Int) ≤ i64max) :
    print_lines content lines ((splitLines content).length : Int) =
      some (bodyOut lines none content) := by
  have hlines : ((splitLines content).length : Int) ≤ i64max := by
    have h := splitLines_length content
    have h2 : ((splitLines content).length : Int) ≤ (content.length : Int) := by
      exact_mod_cast h
    omega
  unfold bodyOut
  cases hg : get_start_index lines ((splitLines content).length : Int) with
  | none => exact absurd hg (gsi_ne_none lines _ hne (Int.natCast_nonneg _) hlines)
  | some r =>
    cases r with
    | none => simp [print_lines, hg]
    | some st => simp [print_lines, hg]

theorem runLoop_nil (quiet : Bool) (numFiles : Nat) (lines : TakeValue)
    (obytes : Option TakeValue) (num : Nat) :
    runLoop quiet numFiles lines obytes num [] = some ([], [], .ok) := rfl

theorem runLoop_bad (quiet : Bool) (numFiles : Nat) (lines : TakeValue)
    (obytes : Option TakeValue) (num : Nat) (name e : List Nat) (rest : List FileSpec) :
    runLoop quiet numFiles lines obytes num (.bad name e :: rest) =
      match runLoop quiet numFiles lines obytes (num + 1) rest with
      | none => none
      | some (out, errs, res) => some (out, openDiag name e :: errs, res) := rfl

theorem runLoop_ioErr (quiet : Bool) (numFiles : Nat) (lines : TakeValue)
    (obytes : Option TakeValue) (num : Nat) (name e : List Nat) (rest : List FileSpec) :
    runLoop quiet numFiles lines obytes num (.ioErr name e :: rest) =
      some (header quiet numFiles num name, [], .error e) := rfl

theorem runLoop_good_eq (quiet : Bool) (numFiles : Nat) (lines : TakeValue)
    (obytes : Option TakeValue) (num : Nat) (name content : List Nat)
    (rest : List FileSpec) :
    runLoop quiet numFiles lines obytes num (.good name content :: rest) =
      match count_lines_bytes content with
      | none => none
      | some none => some (header quiet numFiles num name, [], .error invalidUtf8Msg)
      | some (some (total_lines, total_bytes)) =>
        match (match obytes with
               | some num_bytes => print_bytes content num_bytes total_bytes
               | none => print_lines content lines total_lines) with
        | none => none
        | some body =>
          match runLoop quiet numFiles lines obytes (num + 1) rest with
          | none => none
          | some (out, errs, res) =>
            some (header quiet numFiles num name ++ body ++ out, errs, res) := rfl

theorem withIdx_cons (f : Nat → FileSpec → List Nat) (i : Nat) (x : FileSpec)
    (xs : List FileSpec) : withIdx f i (x :: xs) = f i x :: withIdx f (i + 1) xs := rfl

theorem runLoop_append (quiet : Bool) (numFiles : Nat) (lines : TakeValue)
    (obytes : Option TakeValue) (ys : List FileSpec) :
    ∀ (xs : List FileSpec) (num : Nat),
      runLoop quiet numFiles lines obytes num (xs ++ ys) =
        seqComp (runLoop quiet numFiles lines obytes num xs)
          (runLoop quiet numFiles lines obytes (num + xs.length) ys) := by
  intro xs
  induction xs with
  | nil =>
    intro num
    simp only [List.nil_append, List.length_nil, Nat.add_zero, runLoop_nil]
    cases hys : runLoop quiet numFiles lines obytes num ys with
    | none => simp [seqComp]
    | some t =>
      obtain ⟨o2, e2, r2⟩ := t
      simp [seqComp]
  | cons f xs ih =>
    intro num
    have harith : num + (f :: xs).length = (num + 1) + xs.length := by
      simp [List.length_cons]
      omega
    rw [harith, List.cons_append]
    cases f with
    | bad name e =>
      simp only [runLoop_bad, ih (num + 1)]
      cases hA : runLoop quiet numFiles lines obytes (num + 1) xs with
      | none => simp [seqComp, hA]
      | some t =>
        obtain ⟨o, e1, r⟩ := t
        cases r with
        | error m => simp [seqComp, hA]
        | ok =>
          cases hB : runLoop quiet numFiles lines obytes (num + 1 + xs.length) ys with
          | none => simp [seqComp, hA, hB]
          | some t2 =>
            obtain ⟨o2, e2, r2⟩ := t2
            simp [seqComp, hA, hB]
    | ioErr name e =>
      simp only [runLoop_ioErr]
      simp [seqComp]
    | good name content =>
      cases obytes with
      | some nb =>
        simp only [runLoop_good_eq, ih (num + 1)]
        cases hc : count_lines_bytes content with
        | none => simp [seqComp, hc]
        | some t =>
          cases t with
          | none => simp [seqComp, hc]
          | some t1 =>
          obtain ⟨tl, tb⟩ := t1
          cases hbody : print_bytes content nb tb with
          | none => simp [seqComp, hc, hbody]
          | some body =>
            cases hA : runLoop quiet numFiles lines (some nb) (num + 1) xs with
            | none => simp [seqComp, hc, hbody, hA]
            | some t2 =>
              obtain ⟨o, e1, r⟩ := t2
              cases r with
              | error m => simp [seqComp, hc, hbody, hA]
              | ok =>
                cases hB : runLoop quiet numFiles lines (some nb) (num + 1 + xs.length) ys with
                | none => simp [seqComp, hc, hbody, hA, hB]
                | some t3 =>
                  obtain ⟨o2, e2, r2⟩ := t3
                  simp [seqComp, hc, hbody, hA, hB]
      | none =>
        simp only [runLoop_good_eq, ih (num + 1)]
        cases hc : count_lines_bytes content with
        | none => simp [seqComp, hc]
        | some t =>
          cases t with
          | none => simp [seqComp, hc]
          | some t1 =>
          obtain ⟨tl, tb⟩ := t1
          cases hbody : print_lines content lines tl with
          | none => simp [seqComp, hc, hbody]
          | some body =>
            cases hA : runLoop quiet numFiles lines none (num + 1) xs with
            | none => simp [seqComp, hc, hbody, hA]
            | some t2 =>
              obtain ⟨o, e1, r⟩ := t2
              cases r with
              | error m => simp [seqComp, hc, hbody, hA]
              | ok =>
                cases hB : runLoop quiet numFiles lines none (num + 1 + xs.length) ys with
                | none => simp [seqComp, hc, hbody, hA, hB]
                | some t3 =>
                  obtain ⟨o2, e2, r2⟩ := t3
                  simp [seqComp, hc, hbody, hA, hB]

theorem runLoop_all_good (quiet : Bool) (numFiles : Nat) (lines : TakeValue)
    (obytes : Option TakeValue) (hsel : selOk lines obytes = true) :
    ∀ (fs : List FileSpec) (num : Nat), fs.all isGoodFile = true →
      runLoop quiet numFiles lines obytes num fs =
        some ((withIdx (fun i f => header quiet numFiles i (fileName f) ++
          bodyOut lines obytes (fileContent f)) num fs).flatten, [], .ok) := by
  intro fs
  induction fs with
  | nil =>
    intro num _
    simp [runLoop_nil, withIdx]
  | cons f rest ih =>
    intro num hgood
    rw [List.all_cons, Bool.and_eq_true] at hgood
    obtain ⟨hf, hrest⟩ := hgood
    cases f with
    | bad n e => simp [isGoodFile] at hf
    | ioErr n e => simp [isGoodFile] at hf
    | good n content =>
      unfold isGoodFile at hf
      rw [Bool.and_eq_true, Bool.and_eq_true] at hf
      obtain ⟨⟨hval, hcnt2⟩, hlen2⟩ := hf
      have hcnt : (splitLines content).length ≤ 2 ^ 31 - 1 := of_decide_eq_true hcnt2
      have hlen : (content.length : Int) ≤ i64max := of_decide_eq_true hlen2
      cases obytes with
      | some nb =>
        have hne : nb ≠ .TakeNum i64min := of_decide_eq_true hsel
        simp only [runLoop_good_eq, count_good content hval hcnt,
          bodyOut_bytes lines nb content hne hlen, ih (num + 1) hrest, withIdx_cons]
        simp [fileName, fileContent, List.append_assoc]
      | none =>
        have hne : lines ≠ .TakeNum i64min := of_decide_eq_true hsel
        simp only [runLoop_good_eq, count_good content hval hcnt,
          bodyOut_lines lines content hne hlen, ih (num + 1) hrest, withIdx_cons]
        simp [fileName, fileContent, List.append_assoc]

theorem withIdx_congr (f g : Nat → FileSpec → List Nat)
    (h : ∀ i x, f i x = g i x) : ∀ (fs : List FileSpec) (num : Nat),
      withIdx f num fs = withIdx g num fs := by
  intro fs
  induction fs with
  | nil => intro num; rfl
  | cons x xs ih =>
    intro num
    rw [withIdx_cons, withIdx_cons, h num x, ih (num + 1)]

theorem withIdx_indep (g : FileSpec → List Nat) :
    ∀ (fs : List FileSpec) (num : Nat), withIdx (fun _ f => g f) num fs = fs.map g := by
  intro fs
  induction fs with
  | nil => intro num; rfl
  | cons x xs ih =>
    intro num
    rw [withIdx_cons, ih (num + 1), List.map_cons]

/-- C4 (amended): an I/O failure while counting a file that was successfully
opened is not isolated to that file: the `?` operator propagates the error
out of `run`, so the run ends with that error and the remaining files are
not processed — the output stops after the failing file's header (already
printed), and subsequent files produce no output. -/
theorem C4_io_failure_aborts (pre post : List FileSpec) (name e : List Nat)
    (lines : TakeValue) (obytes : Option TakeValue) (quiet : Bool)
    (o : List Nat) (errs : List (List Nat))
    (h : runLoop quiet (pre ++ .ioErr name e :: post).length lines obytes 0 pre =
      some (o, errs, .ok)) :
    run ⟨pre ++ .ioErr name e :: post, lines, obytes, quiet⟩ =
      some (o ++ header quiet (pre ++ .ioErr name e :: post).length pre.length name,
        errs, .error e) := by
  simp only [run]
  rw [runLoop_append quiet (pre ++ .ioErr name e :: post).length lines obytes
      (.ioErr name e :: post) pre 0, h]
  simp only [Nat.zero_add, runLoop_ioErr]
  simp [seqComp]

/-- C4 counterexample: with two file targets where the first opens but fails
during counting, `run` returns the error, and the second file's content
(byte `104`) never reaches the output — the run is aborted, contradicting
the claim that processing of the remaining files continues. -/
theorem C4_counterexample :
    run ⟨[.ioErr [97] [101], .good [98] [104, 10]], .TakeNum (-10), none, false⟩ =
      some ([61, 61, 62, 32, 97, 32, 60, 61, 61, 10], [], .error [101]) ∧
    (104 : Nat) ∉ [61, 61, 62, 32, 97, 32, 60, 61, 61, 10] := by decide

theorem C4_witness :
    run ⟨[.good [97] [120, 10], .ioErr [98] [101]], .TakeNum (-10), none, false⟩ =
      some ([61, 61, 62, 32, 97, 32, 60, 61, 61, 10, 120, 10] ++
        header false 2 1 [98], [], .error [101]) :=
  C4_io_failure_aborts [.good [97] [120, 10]] [] [98] [101] (.TakeNum (-10)) none false
    [61, 61, 62, 32, 97, 32, 60, 61, 61, 10, 120, 10] [] (by decide)

/-- C6: an open failure for one file adds exactly one diagnostic (the file's
display name with the I/O error text), contributes nothing to the output,
and leaves the processing of the files before and after it unchanged — a
single unopenable file never aborts the batch. -/
theorem C6_open_failure_isolated (pre post : List FileSpec) (name e : List Nat)
    (lines : TakeValue) (obytes : Option TakeValue) (quiet : Bool)
    (o1 o2 : List Nat) (e1 e2 : List (List Nat)) (r : RunResult)
    (h1 : runLoop quiet (pre ++ .bad name e :: post).length lines obytes 0 pre =
      some (o1, e1, .ok))
    (h2 : runLoop quiet (pre ++ .bad name e :: post).length lines obytes
      (pre.length + 1) post = some (o2, e2, r)) :
    run ⟨pre ++ .bad name e :: post, lines, obytes, quiet⟩ =
      some (o1 ++ o2, e1 ++ openDiag name e :: e2, r) := by
  simp only [run]
  rw [runLoop_append quiet (pre ++ .bad name e :: post).length lines obytes
      (.bad name e :: post) pre 0, h1]
  simp only [Nat.zero_add, runLoop_bad, h2]
  simp [seqComp]

theorem C6_witness :
    run ⟨[.good [97] [120, 10], .bad [98] [101], .good [99] [122, 10]],
        .TakeNum (-10), none, false⟩ =
      some ([61, 61, 62, 32, 97, 32, 60, 61, 61, 10, 120, 10] ++
          [10, 61, 61, 62, 32, 99, 32, 60, 61, 61, 10, 122, 10],
        [] ++ openDiag [98] [101] :: [], .ok) :=
  C6_open_failure_isolated [.good [97] [120, 10]] [.good [99] [122, 10]] [98] [101]
    (.TakeNum (-10)) none false
    [61, 61, 62, 32, 97, 32, 60, 61, 61, 10, 120, 10]
    [10, 61, 61, 62, 32, 99, 32, 60, 61, 61, 10, 122, 10]
    [] [] .ok (by decide) (by decide)

/-- C7: with more than one file target and the quiet flag unset, each file's
output is preceded by the header `==> name <==` with exactly one blank line
before every header after the first and none before the first; with the
quiet flag set, or a single file target, no header (and no blank line) is
emitted. -/
theorem C7_headers (files : List FileSpec) (lines : TakeValue) (obytes : Option TakeValue)
    (hgood : files.all isGoodFile = true) (hsel : selOk lines obytes = true) :
    (run ⟨files, lines, obytes, true⟩ =
       some ((files.map (fun f => bodyOut lines obytes (fileContent f))).flatten,
         [], .ok)) ∧
    (∀ f : FileSpec, files = [f] →
       run ⟨files, lines, obytes, false⟩ =
         some (bodyOut lines obytes (fileContent f), [], .ok)) ∧
    (1 < files.length →
       run ⟨files, lines, obytes, false⟩ =
         some ((withIdx (fun i f =>
             (if 0 < i then [10] else []) ++ asciiStr "==> " ++ fileName f ++
               asciiStr " <==" ++ [10] ++ bodyOut lines obytes (fileContent f)) 0
           files).flatten, [], .ok)) := by
  refine ⟨?_, ?_, ?_⟩
  · simp only [run]
    rw [runLoop_all_good true files.length lines obytes hsel files 0 hgood]
    rw [withIdx_congr _ (fun i f => bodyOut lines obytes (fileContent f))
      (fun i x => by simp [header]) files 0]
    rw [withIdx_indep (fun f => bodyOut lines obytes (fileContent f)) files 0]
  · intro f hf
    subst hf
    simp only [run]
    rw [runLoop_all_good false [f].length lines obytes hsel [f] 0 hgood]
    simp [withIdx, header]
  · intro hlen
    simp only [run]
    rw [runLoop_all_good false files.length lines obytes hsel files 0 hgood]
    rw [withIdx_congr _ (fun i f =>
      (if 0 < i then [10] else []) ++ asciiStr "==> " ++ fileName f ++
        asciiStr " <==" ++ [10] ++ bodyOut lines obytes (fileContent f))
      (fun i x => by simp [header, hlen, List.append_assoc]) files 0]

theorem C7_witness :
    run ⟨[.good [97] [120, 10], .good [98] [121, 10]], .TakeNum (-10), none, false⟩ =
      some ((withIdx (fun i f =>
          (if 0 < i then [10] else []) ++ asciiStr "==> " ++ fileName f ++
            asciiStr " <==" ++ [10] ++ bodyOut (.TakeNum (-10)) none (fileContent f)) 0
        [.good [97] [120, 10], .good [98] [121, 10]]).flatten, [], .ok) :=
  (C7_headers [.good [97] [120, 10], .good [98] [121, 10]] (.TakeNum (-10)) none
    (by decide) (by decide)).2.2 (by decide)

/-- The unit tests of `test_parse_num` in the source, replayed against the
embedding. -/
theorem parse_num_unit_tests :
    parse_num ['3'] = .ok (.TakeNum (-3)) ∧
    parse_num ['+', '3'] = .ok (.TakeNum 3) ∧
    parse_num ['-', '3'] = .ok (.TakeNum (-3)) ∧
    parse_num ['0'] = .ok (.TakeNum 0) ∧
    parse_num ['+', '0'] = .ok .PlusZero ∧
    parse_num ['3', '.', '1', '4'] = .error ['3', '.', '1', '4'] ∧
    parse_num ['f', 'o', 'o'] = .error ['f', 'o', 'o'] := by decide

/-- The unit tests of `test_get_start_index` in the source, replayed against
the embedding. -/
theorem get_start_index_unit_tests :
    get_start_index .PlusZero 0 = some none ∧
    get_start_index .PlusZero 1 = some (some 0) ∧
    get_start_index (.TakeNum 0) 1 = some none ∧
    get_start_index (.TakeNum 1) 0 = some none ∧
    get_start_index (.TakeNum 2) 1 = some none ∧
    get_start_index (.TakeNum 1) 10 = some (some 0) ∧
    get_start_index (.TakeNum 2) 10 = some (some 1) ∧
    get_start_index (.TakeNum 3) 10 = some (some 2) ∧
    get_start_index (.TakeNum (-1)) 10 = some (some 9) ∧
    get_start_index (.TakeNum (-2)) 10 = some (some 8) ∧
    get_start_index (.TakeNum (-3)) 10 = some (some 7) ∧
    get_start_index (.TakeNum (-20)) 10 = some (some 0) := by decide
